import Mathlib

set_option maxHeartbeats 1000000

/-!
Verification development for the Tab5 embedded-OS kernel
(`src/framework/system/*`, `src/apps/*`).

The C++ sources are shallowly embedded: each component's mutable state
becomes a Lean structure, each member function a pure Lean function from
state to state (plus result).  External effects that the kernel merely
consumes — the heap allocator `heap_caps_malloc`, the monotonic clock
`millis()`, the wall-clock duration of user callbacks — are passed in as
explicit oracle arguments.  Logging (`ESP_LOG*`) has no effect on any
state and is dropped.  Machine integers (`size_t`, `uint32_t`) are
modelled as `Nat`; the kernel's arithmetic on them (byte totals, listener
counts, millisecond clocks) stays far below 2^32 in every scenario the
claims quantify over, and the clock is the spec's monotonic millisecond
clock, so no wrap-around modelling is needed.
-/

namespace Tab5

/-- Embeds `os_error_t` from `os_config.h` (the codes the embedded operations use). -/
inductive OsErr where
  | ok
  | generic
  | noMemory
  | invalidParam
  | notFound
  | timeout
  | busy
  | notSupported
  deriving DecidableEq, Repr

/-! ### Memory Manager (`memory_manager.cpp`)

`MemoryPool`: fixed-size-block arena with a used/free bitmap.
`m_memory` (the backing buffer) is modelled by its base address
`baseAddr`; a pool whose constructor failed has `totalBlocks = 0`, in
which case every deallocation fails through the index bound check, just
as the null-`m_memory` guard would make it fail in C++. -/
structure Pool where
  blockSize : Nat
  totalBlocks : Nat
  freeBlocks : Nat
  blockUsed : List Bool
  baseAddr : Nat
  deriving DecidableEq, Repr

/-- Index of the first `false` entry (first unused block), as scanned by
the loop in `MemoryPool::allocate`. -/
def findFirstFree : List Bool → Option Nat
  | [] => none
  | b :: rest => if b then (findFirstFree rest).map (· + 1) else some 0

/-- Embeds `MemoryPool::allocate`: fail fast when `m_freeBlocks == 0`, otherwise
scan the bitmap for the first unused block, mark it used and return its
address.  The scan is bounded by `m_totalBlocks` as in the C++ loop. -/
def Pool.alloc (p : Pool) : Pool × Option Nat :=
  if p.freeBlocks = 0 then (p, none)
  else
    match findFirstFree (p.blockUsed.take p.totalBlocks) with
    | none => (p, none)
    | some i =>
        ({ p with blockUsed := p.blockUsed.set i true, freeBlocks := p.freeBlocks - 1 },
         some (p.baseAddr + i * p.blockSize))

/-- Embeds `MemoryPool::deallocate`: reject the null pointer, pointers below the
arena, misaligned offsets, out-of-range indices and double frees;
otherwise clear the bitmap bit. -/
def Pool.dealloc (p : Pool) (ptr : Nat) : Pool × Bool :=
  if ptr = 0 then (p, false)
  else if ptr < p.baseAddr then (p, false)
  else
    let offset := ptr - p.baseAddr
    if offset % p.blockSize ≠ 0 then (p, false)
    else
      let idx := offset / p.blockSize
      if p.totalBlocks ≤ idx then (p, false)
      else if p.blockUsed.getD idx false then
        ({ p with blockUsed := p.blockUsed.set idx false, freeBlocks := p.freeBlocks + 1 }, true)
      else (p, false)

/-- One tracked allocation (`MemoryBlock`).  The `file`/`line` origin tag
only feeds log messages and is dropped; `timestamp` is kept but never
influences a transition. -/
structure MemoryBlock where
  ptr : Nat
  size : Nat
  timestamp : Nat
  inUse : Bool
  deriving DecidableEq, Repr

/-- Embeds `MemoryManager` state after `initialize()` (the `m_initialized` guard
is outside the model: every operation below acts on the initialized
manager). -/
structure MMState where
  pools : List Pool
  activeBlocks : List MemoryBlock
  totalAllocated : Nat
  peakAllocated : Nat
  allocationCount : Nat
  deallocationCount : Nat
  deriving DecidableEq, Repr

/-- Initial manager state: empty registry, zeroed statistics.  The pool
list is a parameter; `initialize()` instantiates it with the four
standard pools (16x64, 64x32, 256x16, 1024x8). -/
def mmInit (pools : List Pool) : MMState :=
  { pools := pools, activeBlocks := [], totalAllocated := 0, peakAllocated := 0,
    allocationCount := 0, deallocationCount := 0 }

/-- The pool loop of `MemoryManager::allocate`: try each pool in order
whose block size fits and which reports a free block; `if (ptr) break`. -/
def tryPools (size : Nat) : List Pool → List Pool × Option Nat
  | [] => ([], none)
  | p :: rest =>
    if size ≤ p.blockSize ∧ 0 < p.freeBlocks then
      match p.alloc with
      | (p', some ptr) => (p' :: rest, some ptr)
      | (p', none) =>
          let (rest', r) := tryPools size rest
          (p' :: rest', r)
    else
      let (rest', r) := tryPools size rest
      (p :: rest', r)

/-- First phase of `MemoryManager::allocate` (lines 111-128): obtain a
pointer, from the pools when `size <= 1024`, else (or when the pools
yield nothing) from the heap oracle (`none` = the heap returned NULL). -/
def mmRawAlloc (pools : List Pool) (size : Nat) (heapPtr : Option Nat) :
    List Pool × Option Nat :=
  let pr := if size ≤ 1024 then tryPools size pools else (pools, none)
  match pr with
  | (pools', some q) => (pools', some q)
  | (pools', none) => (pools', heapPtr)

/-- Embeds `MemoryManager::allocate`.  `now` is the `millis()` oracle (only
recorded into the block's timestamp). On success the allocation is
tracked and the totals updated (lines 130-154). -/
def mmAllocate (s : MMState) (size : Nat) (now : Nat) (heapPtr : Option Nat) :
    MMState × Option Nat :=
  if size = 0 then (s, none)
  else
    match mmRawAlloc s.pools size heapPtr with
    | (pools', none) => ({ s with pools := pools' }, none)
    | (pools', some q) =>
        let block : MemoryBlock := { ptr := q, size := size, timestamp := now, inUse := true }
        let total := s.totalAllocated + size
        ({ s with pools := pools',
                  activeBlocks := s.activeBlocks ++ [block],
                  totalAllocated := total,
                  allocationCount := s.allocationCount + 1,
                  peakAllocated := max s.peakAllocated total }, some q)

/-- Embeds `findBlock` (`std::find_if` over `m_activeBlocks`) fused with the
`erase(it)` at the found iterator: returns the first block whose `ptr`
matches together with the registry with that block removed. -/
def extractBlock (ptr : Nat) : List MemoryBlock → Option (MemoryBlock × List MemoryBlock)
  | [] => none
  | b :: rest =>
    if b.ptr = ptr then some (b, rest)
    else (extractBlock ptr rest).map (fun x => (x.1, b :: x.2))

/-- The pool loop of `MemoryManager::deallocate`: offer the pointer to
each pool in order until one accepts it (`if (pool->deallocate(ptr)) break`). -/
def poolsDealloc (ptr : Nat) : List Pool → List Pool × Bool
  | [] => ([], false)
  | p :: rest =>
    match p.dealloc ptr with
    | (p', true) => (p' :: rest, true)
    | (p', false) =>
        let (rest', r) := poolsDealloc ptr rest
        (p' :: rest', r)

/-- Embeds `MemoryManager::deallocate`: null and untracked pointers fail before
anything is touched; otherwise the pools are offered the pointer, the
tracking record is erased and the totals updated.  (Heap `free` is an
external effect with no model state.) -/
def mmDeallocate (s : MMState) (ptr : Nat) : MMState × Bool :=
  if ptr = 0 then (s, false)
  else
    match extractBlock ptr s.activeBlocks with
    | none => (s, false)
    | some (b, rest) =>
        let pd := poolsDealloc ptr s.pools
        ({ s with pools := pd.1,
                  activeBlocks := rest,
                  totalAllocated := s.totalAllocated - b.size,
                  deallocationCount := s.deallocationCount + 1 }, true)

/-- Embeds `MemoryManager::checkLeaks`: count the still-tracked blocks whose
`inUse` flag is set (purely observational). -/
def mmCheckLeaks (s : MMState) : Nat :=
  (s.activeBlocks.filter (fun b => b.inUse)).length

/-- One call in an `allocate`/`deallocate` sequence, carrying its heap
oracle. -/
inductive MMOp where
  | alloc (size : Nat) (heapPtr : Option Nat)
  | dealloc (ptr : Nat)
  deriving DecidableEq, Repr

/-- Observable outcome of one call. -/
inductive MMEvent where
  | allocOk (ptr : Nat) (size : Nat)
  | allocFail (size : Nat)
  | deallocOk (ptr : Nat)
  | deallocFail (ptr : Nat)
  deriving DecidableEq, Repr

/-- Run one call (the trace model fixes the timestamp clock at 0; the
timestamp influences nothing). -/
def mmStep (s : MMState) : MMOp → MMState × MMEvent
  | .alloc size hp =>
    match mmAllocate s size 0 hp with
    | (s', some q) => (s', .allocOk q size)
    | (s', none) => (s', .allocFail size)
  | .dealloc p =>
    match mmDeallocate s p with
    | (s', true) => (s', .deallocOk p)
    | (s', false) => (s', .deallocFail p)

/-- Run a sequence of calls, collecting the event trace. -/
def mmRun (s : MMState) : List MMOp → MMState × List MMEvent
  | [] => (s, [])
  | op :: ops =>
    let r := mmStep s op
    let r' := mmRun r.1 ops
    (r'.1, r.2 :: r'.2)

/-- Remove the first entry with the given pointer. -/
def removeFirstPtr (ptr : Nat) : List (Nat × Nat) → List (Nat × Nat)
  | [] => []
  | e :: rest => if e.1 = ptr then rest else e :: removeFirstPtr ptr rest

/-- Spec-side ledger for C1, built from the claim's words alone: the
`(pointer, size)` pairs of the successful `allocate` calls whose pointer
has not yet been successfully deallocated (a successful `deallocate`
retires the earliest outstanding allocation of that pointer). -/
def outstandingAux (acc : List (Nat × Nat)) : List MMEvent → List (Nat × Nat)
  | [] => acc
  | .allocOk q sz :: es => outstandingAux (acc ++ [(q, sz)]) es
  | .allocFail _ :: es => outstandingAux acc es
  | .deallocOk p :: es => outstandingAux (removeFirstPtr p acc) es
  | .deallocFail _ :: es => outstandingAux acc es

/-- The outstanding allocations after a trace of events. -/
def outstandingSpec (es : List MMEvent) : List (Nat × Nat) :=
  outstandingAux [] es

/-- Registry view used to compare code state with the spec ledger. -/
def mmView (s : MMState) : List (Nat × Nat) :=
  s.activeBlocks.map (fun b => (b.ptr, b.size))

/-- The two registry invariants the manager maintains: the running total
is the sum of the tracked sizes, and every tracked block has its
`inUse` flag set (nothing in the code ever clears it). -/
def MMInv (s : MMState) : Prop :=
  s.totalAllocated = (s.activeBlocks.map (fun b => b.size)).sum
  ∧ ∀ b ∈ s.activeBlocks, b.inUse = true

lemma extractBlock_none_of_notmem (ptr : Nat) :
    ∀ blocks : List MemoryBlock, (∀ b ∈ blocks, b.ptr ≠ ptr) →
      extractBlock ptr blocks = none := by
  intro blocks
  induction blocks with
  | nil => intro _; rfl
  | cons b rest ih =>
    intro h
    have hb : b.ptr ≠ ptr := h b (by simp)
    have hr := ih (fun x hx => h x (by simp [hx]))
    simp [extractBlock, hb, hr]

lemma extractBlock_spec (ptr : Nat) :
    ∀ (blocks rest : List MemoryBlock) (b : MemoryBlock),
      extractBlock ptr blocks = some (b, rest) →
      rest.map (fun x => (x.ptr, x.size))
          = removeFirstPtr ptr (blocks.map (fun x => (x.ptr, x.size)))
      ∧ (rest.map (fun x => x.size)).sum + b.size = (blocks.map (fun x => x.size)).sum
      ∧ (∀ x ∈ rest, x ∈ blocks) := by
  intro blocks
  induction blocks with
  | nil => intro rest b h; simp [extractBlock] at h
  | cons c cs ih =>
    intro rest b h
    by_cases hc : c.ptr = ptr
    · simp only [extractBlock, if_pos hc, Option.some.injEq, Prod.mk.injEq] at h
      obtain ⟨hb, hrest⟩ := h
      subst hb; subst hrest
      refine ⟨?_, ?_, ?_⟩
      · simp [removeFirstPtr, hc]
      · simp [Nat.add_comm]
      · intro x hx; exact List.mem_cons_of_mem c hx
    · rcases hcs : extractBlock ptr cs with _ | ⟨x, l⟩
      · simp [extractBlock, hc, hcs] at h
      · simp only [extractBlock, if_neg hc, hcs, Option.map_some', Option.some.injEq,
          Prod.mk.injEq] at h
        obtain ⟨hb, hrest⟩ := h
        subst hb; subst hrest
        obtain ⟨ih1, ih2, ih3⟩ := ih l x hcs
        refine ⟨?_, ?_, ?_⟩
        · simp only [List.map_cons, removeFirstPtr, if_neg hc, ih1]
        · simp only [List.map_cons, List.sum_cons]
          omega
        · intro y hy
          rcases List.mem_cons.mp hy with h1 | h1
          · simp [h1]
          · exact List.mem_cons_of_mem c (ih3 y h1)

lemma mmAllocate_none_spec (s s' : MMState) (size now : Nat) (hp : Option Nat)
    (h : mmAllocate s size now hp = (s', none)) :
    s'.activeBlocks = s.activeBlocks ∧ s'.totalAllocated = s.totalAllocated := by
  unfold mmAllocate at h
  by_cases h0 : size = 0
  · simp only [if_pos h0, Prod.mk.injEq] at h
    obtain ⟨h1, -⟩ := h
    subst h1
    exact ⟨rfl, rfl⟩
  · rw [if_neg h0] at h
    rcases hr : mmRawAlloc s.pools size hp with ⟨pools', q⟩
    rw [hr] at h
    cases q
    · simp only [Prod.mk.injEq] at h
      obtain ⟨h1, -⟩ := h
      subst h1
      exact ⟨rfl, rfl⟩
    · simp at h

lemma mmAllocate_some_spec (s s' : MMState) (size now : Nat) (hp : Option Nat) (q : Nat)
    (h : mmAllocate s size now hp = (s', some q)) :
    s'.activeBlocks
        = s.activeBlocks ++ [{ ptr := q, size := size, timestamp := now, inUse := true }]
    ∧ s'.totalAllocated = s.totalAllocated + size := by
  unfold mmAllocate at h
  by_cases h0 : size = 0
  · simp [h0] at h
  · rw [if_neg h0] at h
    rcases hr : mmRawAlloc s.pools size hp with ⟨pools', r⟩
    rw [hr] at h
    cases r
    · simp at h
    · simp only [Prod.mk.injEq, Option.some.injEq] at h
      obtain ⟨h1, h2⟩ := h
      subst h2
      subst h1
      exact ⟨rfl, rfl⟩

lemma mmDeallocate_false_spec (s s' : MMState) (p : Nat)
    (h : mmDeallocate s p = (s', false)) : s' = s := by
  unfold mmDeallocate at h
  by_cases h0 : p = 0
  · simp only [if_pos h0, Prod.mk.injEq] at h
    exact h.1.symm
  · rw [if_neg h0] at h
    rcases he : extractBlock p s.activeBlocks with _ | ⟨b, rest⟩
    · rw [he] at h
      simp only [Prod.mk.injEq] at h
      exact h.1.symm
    · rw [he] at h
      simp at h

lemma mmDeallocate_true_spec (s s' : MMState) (p : Nat)
    (h : mmDeallocate s p = (s', true)) :
    ∃ b rest, extractBlock p s.activeBlocks = some (b, rest)
      ∧ s'.activeBlocks = rest ∧ s'.totalAllocated = s.totalAllocated - b.size := by
  unfold mmDeallocate at h
  by_cases h0 : p = 0
  · simp [h0] at h
  · rw [if_neg h0] at h
    rcases he : extractBlock p s.activeBlocks with _ | ⟨b, rest⟩
    · rw [he] at h
      simp at h
    · rw [he] at h
      simp only [Prod.mk.injEq] at h
      obtain ⟨h1, -⟩ := h
      subst h1
      exact ⟨b, rest, rfl, rfl, rfl⟩

lemma outstandingAux_cons (acc : List (Nat × Nat)) (e : MMEvent) (es : List MMEvent) :
    outstandingAux acc (e :: es) = outstandingAux (outstandingAux acc [e]) es := by
  cases e <;> rfl

lemma mmStep_spec (s : MMState) (op : MMOp) (h : MMInv s) :
    MMInv (mmStep s op).1
    ∧ mmView (mmStep s op).1 = outstandingAux (mmView s) [(mmStep s op).2] := by
  obtain ⟨htot, huse⟩ := h
  cases op with
  | alloc size hp =>
    rcases ha : mmAllocate s size 0 hp with ⟨s', r⟩
    cases r with
    | none =>
      obtain ⟨h1, h2⟩ := mmAllocate_none_spec s s' size 0 hp ha
      simp only [mmStep, ha]
      refine ⟨⟨?_, ?_⟩, ?_⟩
      · rw [h2, htot, h1]
      · rw [h1]; exact huse
      · simp [mmView, h1, outstandingAux]
    | some q =>
      obtain ⟨h1, h2⟩ := mmAllocate_some_spec s s' size 0 hp q ha
      simp only [mmStep, ha]
      refine ⟨⟨?_, ?_⟩, ?_⟩
      · rw [h2, h1]; simp [htot]
      · rw [h1]
        intro b hb
        rcases List.mem_append.mp hb with h3 | h3
        · exact huse b h3
        · simp at h3; simp [h3]
      · simp [mmView, h1, outstandingAux]
  | dealloc p =>
    rcases hd : mmDeallocate s p with ⟨s', r⟩
    cases r with
    | false =>
      have hs := mmDeallocate_false_spec s s' p hd
      subst hs
      simp only [mmStep, hd]
      exact ⟨⟨htot, huse⟩, by simp [outstandingAux]⟩
    | true =>
      obtain ⟨b, rest, he, h1, h2⟩ := mmDeallocate_true_spec s s' p hd
      obtain ⟨e1, e2, e3⟩ := extractBlock_spec p s.activeBlocks rest b he
      simp only [mmStep, hd]
      refine ⟨⟨?_, ?_⟩, ?_⟩
      · rw [h2, h1, htot]; omega
      · rw [h1]; intro x hx; exact huse x (e3 x hx)
      · simp only [mmView, h1, outstandingAux, e1]

lemma mmRun_spec (ops : List MMOp) :
    ∀ s : MMState, MMInv s →
      MMInv (mmRun s ops).1
      ∧ mmView (mmRun s ops).1 = outstandingAux (mmView s) (mmRun s ops).2 := by
  induction ops with
  | nil => intro s h; exact ⟨h, rfl⟩
  | cons op ops ih =>
    intro s h
    obtain ⟨h1, h2⟩ := mmStep_spec s op h
    obtain ⟨h3, h4⟩ := ih (mmStep s op).1 h1
    refine ⟨by simpa [mmRun] using h3, ?_⟩
    simp only [mmRun]
    rw [outstandingAux_cons, ← h2]
    exact h4

/-- C1: after any sequence of `allocate`/`deallocate` calls on the
initialized manager, the tracked total (`getTotalAllocated`, i.e.
`m_totalAllocated`) equals the sum of the sizes of the successful
allocations whose pointer has not yet been successfully deallocated, and
`checkLeaks()` returns exactly the number of those outstanding
allocations. -/
theorem C1_tracking_invariant (pools : List Pool) (ops : List MMOp) :
    (mmRun (mmInit pools) ops).1.totalAllocated
        = ((outstandingSpec (mmRun (mmInit pools) ops).2).map Prod.snd).sum
    ∧ mmCheckLeaks (mmRun (mmInit pools) ops).1
        = (outstandingSpec (mmRun (mmInit pools) ops).2).length := by
  have h0 : MMInv (mmInit pools) := ⟨by simp [mmInit], by simp [mmInit]⟩
  obtain ⟨⟨ht, hu⟩, hv⟩ := mmRun_spec ops (mmInit pools) h0
  have hview : mmView (mmRun (mmInit pools) ops).1
      = outstandingSpec (mmRun (mmInit pools) ops).2 := by
    simpa [outstandingSpec, mmView, mmInit] using hv
  constructor
  · rw [ht, ← hview]
    unfold mmView
    rw [List.map_map]
    rfl
  · have hfil : (mmRun (mmInit pools) ops).1.activeBlocks.filter (fun b => b.inUse)
        = (mmRun (mmInit pools) ops).1.activeBlocks :=
      List.filter_eq_self.mpr (fun b hb => by simp [hu b hb])
    unfold mmCheckLeaks
    rw [hfil, ← hview]
    simp [mmView]

/-- Concrete state for the C6 witness: one tracked block at address 5. -/
def c6State : MMState :=
  { pools := [], activeBlocks := [{ ptr := 5, size := 16, timestamp := 0, inUse := true }],
    totalAllocated := 16, peakAllocated := 16, allocationCount := 1, deallocationCount := 0 }

/-- C6: `deallocate` on a pointer that is not in the tracked-block
registry (never returned by `allocate`, or already deallocated) returns
failure and leaves the entire manager state — registry, pools, counters,
totals — unchanged. -/
theorem C6_deallocate_untracked_noop (s : MMState) (ptr : Nat)
    (h : ∀ b ∈ s.activeBlocks, b.ptr ≠ ptr) :
    mmDeallocate s ptr = (s, false) := by
  unfold mmDeallocate
  by_cases h0 : ptr = 0
  · simp [h0]
  · simp [h0, extractBlock_none_of_notmem ptr s.activeBlocks h]

/-- Witness for C6 at a concrete state: freeing untracked pointer 7 while
only pointer 5 is tracked fails and changes nothing. -/
theorem C6_deallocate_untracked_noop_witness :
    mmDeallocate c6State 7 = (c6State, false) :=
  C6_deallocate_untracked_noop c6State 7 (by decide)

/-! ### `std::map` over integer keys

Association list kept sorted by ascending key; list order is the map's
iteration order.  Keys are `Nat` (event types are `uint32_t`; app-id
strings are injectively renamed to naturals, `std::map<std::string,...>`
iteration order becoming ascending id order). -/

/-- Embeds `map.find(key)`. -/
def alLookup {α : Type} : List (Nat × α) → Nat → Option α
  | [], _ => none
  | (k, v) :: rest, key => if k = key then some v else alLookup rest key

/-- Embeds `map[key] = v` (insert or assign, preserving key order). -/
def alInsert {α : Type} (key : Nat) (v : α) : List (Nat × α) → List (Nat × α)
  | [] => [(key, v)]
  | (k, w) :: rest =>
    if key < k then (key, v) :: (k, w) :: rest
    else if key = k then (key, v) :: rest
    else (k, w) :: alInsert key v rest

/-- Embeds `map.erase(key)`. -/
def alErase {α : Type} (key : Nat) : List (Nat × α) → List (Nat × α)
  | [] => []
  | (k, w) :: rest => if k = key then rest else (k, w) :: alErase key rest

/-! ### Event System (`event_system.cpp`) -/

/-- Embeds `EventListener` (the callback itself is symbolic: delivery is
recorded as the listener's id in the invocation log). -/
structure EvListener where
  id : Nat
  eventType : Nat
  priority : Nat
  oneShot : Bool
  callCount : Nat
  deriving DecidableEq, Repr

/-- Embeds `OS_EVENT_QUEUE_SIZE` from `os_config.h`. -/
def OS_EVENT_QUEUE_SIZE : Nat := 128

/-- Embeds `EventSystem` state after `initialize()`.  An `EventData` is steered
only by its `type`; the opaque payload pointer, size, sender and
timestamp ride along untouched and are dropped, so the queue is a FIFO
of event types (head = front). -/
structure ESState where
  listeners : List (Nat × List EvListener)
  eventQueue : List Nat
  nextListenerId : Nat
  eventsPublished : Nat
  eventsProcessed : Nat
  listenersNotified : Nat
  deriving DecidableEq, Repr

/-- Post-`initialize()` state: no listeners, empty queue, zeroed ids and
statistics. -/
def esInit : ESState :=
  { listeners := [], eventQueue := [], nextListenerId := 0,
    eventsPublished := 0, eventsProcessed := 0, listenersNotified := 0 }

/-- Embeds `m_listeners[eventType]` as read (default-constructed empty when absent). -/
def esGetListeners (s : ESState) (eventType : Nat) : List EvListener :=
  (alLookup s.listeners eventType).getD []

/-- The listener built by `subscribe` (`generateListenerId` is
`++m_nextListenerId`, so ids record subscription order). -/
def newListener (s : ESState) (eventType priority : Nat) (oneShot : Bool) : EvListener :=
  { id := s.nextListenerId + 1, eventType := eventType, priority := priority,
    oneShot := oneShot, callCount := 0 }

/-- A possible output of the `std::sort` call in `subscribe` with
comparator `a.priority > b.priority`: a permutation of the input that is
sorted for that comparator.  `std::sort` is not a stable sort, so the
C++ standard guarantees nothing more than this about the result; in
particular the relative order of equal-priority listeners is
unspecified. -/
def validSortDesc (input output : List EvListener) : Prop :=
  output.Perm input ∧ output.Pairwise (fun a b => ¬ a.priority < b.priority)

/-- Embeds `EventSystem::subscribe` (with a non-null callback): append the new
listener to its type's sequence, then `std::sort` it by descending
priority.  Relational because of the unstable sort. -/
def subscribeRel (s : ESState) (eventType priority : Nat) (oneShot : Bool)
    (s' : ESState) : Prop :=
  ∃ sorted,
    validSortDesc (esGetListeners s eventType ++ [newListener s eventType priority oneShot])
      sorted
    ∧ s' = { s with listeners := alInsert eventType sorted s.listeners,
                    nextListenerId := s.nextListenerId + 1 }

/-- A sequence of `subscribe(eventType, priority, oneShot)` calls. -/
inductive SubSeq : ESState → List (Nat × Nat × Bool) → ESState → Prop where
  | nil (s : ESState) : SubSeq s [] s
  | cons {s s' s'' : ESState} {a : Nat × Nat × Bool} {rest : List (Nat × Nat × Bool)} :
      subscribeRel s a.1 a.2.1 a.2.2 s' → SubSeq s' rest s'' → SubSeq s (a :: rest) s''

/-- The delivery loop of `publishSync`: every listener's `callCount` is
incremented (callbacks are modelled as returning normally; a throwing
callback would be caught and only skip its own `callCount++`). -/
def bumpAll : List EvListener → List EvListener :=
  List.map (fun l => { l with callCount := l.callCount + 1 })

/-- Embeds `EventSystem::publishSync`: deliver to the listeners of the type in
their stored order.  Returns (state, notified count, invocation log as
listener ids in delivery order). -/
def publishSync (s : ESState) (eventType : Nat) : ESState × Nat × List Nat :=
  match alLookup s.listeners eventType with
  | none => (s, 0, [])
  | some ls =>
      ({ s with listeners := alInsert eventType (bumpAll ls) s.listeners,
                listenersNotified := s.listenersNotified + ls.length },
       ls.length, ls.map (fun l => l.id))

/-- Embeds `EventSystem::publishAsync`: reject when the bounded FIFO is full,
otherwise enqueue at the back. -/
def publishAsync (s : ESState) (eventType : Nat) : ESState × Bool :=
  if OS_EVENT_QUEUE_SIZE ≤ s.eventQueue.length then (s, false)
  else ({ s with eventQueue := s.eventQueue ++ [eventType],
                 eventsPublished := s.eventsPublished + 1 }, true)

/-- The drain loop of `processEvents` (`maxEventsPerFrame = 10` is the
fuel): pop the front event, deliver it via `publishSync`, repeat.
Returns (state, events processed, concatenated invocation log). -/
def processBatch : Nat → ESState → ESState × Nat × List Nat
  | 0, s => (s, 0, [])
  | fuel + 1, s =>
    match s.eventQueue with
    | [] => (s, 0, [])
    | e :: rest =>
        let r1 := publishSync { s with eventQueue := rest } e
        let s1 := { r1.1 with eventsProcessed := r1.1.eventsProcessed + 1 }
        let r2 := processBatch fuel s1
        (r2.1, r2.2.1 + 1, r1.2.2 ++ r2.2.2)

/-- Embeds `EventSystem::cleanupListeners`: drop every one-shot listener that
has been called at least once. -/
def cleanupListeners (s : ESState) : ESState :=
  { s with listeners :=
      s.listeners.map (fun kv =>
        (kv.1, kv.2.filter (fun l => !(l.oneShot && decide (0 < l.callCount))))) }

/-- Embeds `EventSystem::processEvents`: drain up to 10 queued events, then
prune fired one-shot listeners if anything was processed. -/
def processEvents (s : ESState) : ESState × Nat × List Nat :=
  if 0 < (processBatch 10 s).2.1 then
    (cleanupListeners (processBatch 10 s).1, (processBatch 10 s).2.1, (processBatch 10 s).2.2)
  else processBatch 10 s

/-- One call in a `publishAsync`/`processEvents` sequence (the two
operations C9 quantifies over). -/
inductive ESOp where
  | pubAsync (eventType : Nat)
  | procEvents
  deriving DecidableEq, Repr

/-- Run a sequence of queue operations. -/
def esRunQueueOps (s : ESState) : List ESOp → ESState
  | [] => s
  | .pubAsync e :: ops => esRunQueueOps (publishAsync s e).1 ops
  | .procEvents :: ops => esRunQueueOps (processEvents s).1 ops

lemma publishSync_eventQueue (s : ESState) (e : Nat) :
    (publishSync s e).1.eventQueue = s.eventQueue := by
  unfold publishSync
  cases alLookup s.listeners e <;> rfl

lemma processBatch_eventQueue_le : ∀ (fuel : Nat) (s : ESState),
    (processBatch fuel s).1.eventQueue.length ≤ s.eventQueue.length := by
  intro fuel
  induction fuel with
  | zero => intro s; exact le_refl _
  | succ n ih =>
    intro s
    rcases hq : s.eventQueue with _ | ⟨e, rest⟩
    · simp [processBatch, hq]
    · simp only [processBatch, hq]
      refine le_trans (ih _) ?_
      rw [publishSync_eventQueue]
      simp [hq]

lemma esRunQueueOps_bound : ∀ (ops : List ESOp) (s : ESState),
    s.eventQueue.length ≤ OS_EVENT_QUEUE_SIZE →
    (esRunQueueOps s ops).eventQueue.length ≤ OS_EVENT_QUEUE_SIZE := by
  intro ops
  induction ops with
  | nil => intro s h; exact h
  | cons op rest ih =>
    intro s h
    cases op with
    | pubAsync e =>
      refine ih _ ?_
      unfold publishAsync
      by_cases hf : OS_EVENT_QUEUE_SIZE ≤ s.eventQueue.length
      · rw [if_pos hf]; exact h
      · rw [if_neg hf]
        simp only [List.length_append, List.length_cons, List.length_nil]
        omega
    | procEvents =>
      refine ih _ ?_
      unfold processEvents
      by_cases hp : 0 < (processBatch 10 s).2.1
      · rw [if_pos hp]
        simp only [cleanupListeners]
        exact le_trans (processBatch_eventQueue_le 10 s) h
      · rw [if_neg hp]
        exact le_trans (processBatch_eventQueue_le 10 s) h

/-- C9: `publishAsync` on a full queue (`OS_EVENT_QUEUE_SIZE = 128`
events) rejects the event and leaves the state unchanged, and after any
sequence of `publishAsync`/`processEvents` calls the queue never holds
more than `OS_EVENT_QUEUE_SIZE` events. -/
theorem C9_async_queue_bounded :
    (∀ (s : ESState) (e : Nat), OS_EVENT_QUEUE_SIZE ≤ s.eventQueue.length →
        publishAsync s e = (s, false))
    ∧ ∀ ops : List ESOp,
        (esRunQueueOps esInit ops).eventQueue.length ≤ OS_EVENT_QUEUE_SIZE := by
  constructor
  · intro s e h
    unfold publishAsync
    rw [if_pos h]
  · intro ops
    exact esRunQueueOps_bound ops esInit (by simp [esInit, OS_EVENT_QUEUE_SIZE])

/-- A state whose queue is exactly at capacity, for the C9 witness. -/
def c9FullState : ESState := { esInit with eventQueue := List.replicate 128 0 }

/-- Witness for C9: a 129th `publishAsync` on a full queue is rejected
with the state unchanged, and a concrete operation sequence stays within
the bound. -/
theorem C9_async_queue_bounded_witness :
    publishAsync c9FullState 5 = (c9FullState, false)
    ∧ (esRunQueueOps esInit [ESOp.pubAsync 1, ESOp.pubAsync 2]).eventQueue.length
        ≤ OS_EVENT_QUEUE_SIZE :=
  ⟨C9_async_queue_bounded.1 c9FullState 5 (by simp [c9FullState, esInit, OS_EVENT_QUEUE_SIZE]),
   C9_async_queue_bounded.2 [ESOp.pubAsync 1, ESOp.pubAsync 2]⟩

lemma alLookup_alInsert {α : Type} (key : Nat) (v : α) :
    ∀ (l : List (Nat × α)) (t : Nat),
      alLookup (alInsert key v l) t = if key = t then some v else alLookup l t := by
  intro l
  induction l with
  | nil =>
    intro t
    simp [alInsert, alLookup]
  | cons kv rest ih =>
    intro t
    obtain ⟨k, w⟩ := kv
    unfold alInsert
    rcases Nat.lt_trichotomy key k with h1 | h1 | h1
    · rw [if_pos h1]
      by_cases h2 : key = t
      · simp [alLookup, h2]
      · simp only [alLookup, if_neg h2]
    · rw [if_neg (by omega), if_pos h1]
      subst h1
      by_cases h2 : key = t
      · simp [alLookup, h2]
      · simp [alLookup, h2]
    · rw [if_neg (by omega), if_neg (by omega)]
      by_cases h2 : k = t
      · have hkt : key ≠ t := by omega
        simp [alLookup, h2, hkt]
      · simp only [alLookup, if_neg h2]
        exact ih t

/-- Every stored listener sequence is sorted for the subscribe
comparator (descending priority). -/
def ESSorted (s : ESState) : Prop :=
  ∀ t : Nat, (esGetListeners s t).Pairwise (fun a b => ¬ a.priority < b.priority)

lemma subscribeRel_sorted {s s' : ESState} {t p : Nat} {os : Bool}
    (h : subscribeRel s t p os s') (hs : ESSorted s) : ESSorted s' := by
  obtain ⟨sorted, ⟨_, hpair⟩, rfl⟩ := h
  intro u
  unfold esGetListeners
  simp only [alLookup_alInsert]
  by_cases hu : t = u
  · simp only [if_pos hu, Option.getD_some]
    exact hpair
  · simp only [if_neg hu]
    exact hs u

lemma subSeq_sorted {subs : List (Nat × Nat × Bool)} {s s' : ESState}
    (h : SubSeq s subs s') (hs : ESSorted s) : ESSorted s' := by
  induction h with
  | nil => exact hs
  | cons hstep _ ih => exact ih (subscribeRel_sorted hstep hs)

/-- C2 (amended): after any sequence of `subscribe` calls, the stored
listener sequence of every event type is sorted by descending priority,
and `publishSync` delivers in exactly that stored order — so delivery is
always in descending-priority order.  (The tie-order half of the original
claim is refuted by `C2_tie_order_counterexample`: `std::sort` leaves
the relative order of equal-priority listeners unspecified.) -/
theorem C2_publish_priority_order (subs : List (Nat × Nat × Bool)) (s : ESState)
    (h : SubSeq esInit subs s) (t : Nat) :
    (esGetListeners s t).Pairwise (fun a b => b.priority ≤ a.priority)
    ∧ (publishSync s t).2.2 = (esGetListeners s t).map (fun l => l.id) := by
  have hs : ESSorted s := subSeq_sorted h (by intro u; simp [esInit, esGetListeners, alLookup])
  constructor
  · exact List.Pairwise.imp (fun hab => by omega) (hs t)
  · unfold publishSync esGetListeners
    rcases alLookup s.listeners t with _ | ls
    · rfl
    · rfl

/-- Listener from the first subscribe of the C2 witness (priority 5). -/
def c2wListener1 : EvListener :=
  { id := 1, eventType := 7, priority := 5, oneShot := false, callCount := 0 }

/-- Listener from the second subscribe of the C2 witness (priority 10). -/
def c2wListener2 : EvListener :=
  { id := 2, eventType := 7, priority := 10, oneShot := false, callCount := 0 }

/-- State reached by subscribing priorities 5 then 10 to type 7. -/
def c2wState : ESState :=
  { esInit with listeners := [(7, [c2wListener2, c2wListener1])], nextListenerId := 2 }

/-- Intermediate state of the C2 witness run (after the first subscribe). -/
def c2wMid : ESState :=
  { esInit with listeners := [(7, [c2wListener1])], nextListenerId := 1 }

lemma c2w_reach : SubSeq esInit [(7, 5, false), (7, 10, false)] c2wState := by
  have h1 : subscribeRel esInit 7 5 false c2wMid :=
    ⟨[c2wListener1], ⟨by decide, by decide⟩, by rfl⟩
  have h2 : subscribeRel c2wMid 7 10 false c2wState :=
    ⟨[c2wListener2, c2wListener1], ⟨by decide, by decide⟩, by rfl⟩
  exact SubSeq.cons h1 (SubSeq.cons h2 (SubSeq.nil _))

/-- Witness for the amended C2 at a concrete subscribe sequence
(priorities 5 then 10 on event type 7). -/
theorem C2_publish_priority_order_witness :
    (esGetListeners c2wState 7).Pairwise (fun a b => b.priority ≤ a.priority)
    ∧ (publishSync c2wState 7).2.2 = (esGetListeners c2wState 7).map (fun l => l.id) :=
  C2_publish_priority_order [(7, 5, false), (7, 10, false)] c2wState c2w_reach 7

/-- First-subscribed equal-priority listener for the C2 counterexample. -/
def c2cListener1 : EvListener :=
  { id := 1, eventType := 7, priority := 5, oneShot := false, callCount := 0 }

/-- Second-subscribed equal-priority listener for the C2 counterexample. -/
def c2cListener2 : EvListener :=
  { id := 2, eventType := 7, priority := 5, oneShot := false, callCount := 0 }

/-- A reachable post-subscribe state in which `std::sort` put the
later-subscribed equal-priority listener first. -/
def c2cState : ESState :=
  { esInit with listeners := [(7, [c2cListener2, c2cListener1])], nextListenerId := 2 }

/-- Intermediate state of the C2 counterexample run. -/
def c2cMid : ESState :=
  { esInit with listeners := [(7, [c2cListener1])], nextListenerId := 1 }

/-- C2 counterexample: subscribing two listeners of equal priority 5 to
the same type does NOT guarantee insertion order among equal priorities.
`subscribe` sorts with unstable `std::sort` (comparator
`a.priority > b.priority`), and the reversed order `[id 2, id 1]` is a
legal sort output, so a reachable state violates "among equal priority,
in the order they were subscribed" (ids record subscription order). -/
theorem C2_tie_order_counterexample :
    ¬ (∀ s : ESState, SubSeq esInit [(7, 5, false), (7, 5, false)] s →
        (esGetListeners s 7).Pairwise (fun a b => a.priority = b.priority → a.id < b.id)) := by
  intro hclaim
  have h1 : subscribeRel esInit 7 5 false c2cMid :=
    ⟨[c2cListener1], ⟨by decide, by decide⟩, by rfl⟩
  have h2 : subscribeRel c2cMid 7 5 false c2cState :=
    ⟨[c2cListener2, c2cListener1], ⟨by decide, by decide⟩, by rfl⟩
  have hp := hclaim c2cState (SubSeq.cons h1 (SubSeq.cons h2 (SubSeq.nil _)))
  revert hp
  decide

lemma processBatch_pos (fuel : Nat) (s : ESState) (hq : s.eventQueue ≠ [])
    (hf : fuel ≠ 0) : 0 < (processBatch fuel s).2.1 := by
  cases fuel with
  | zero => exact absurd rfl hf
  | succ n =>
    rcases hqe : s.eventQueue with _ | ⟨e, rest⟩
    · exact absurd hqe hq
    · simp only [processBatch, hqe]
      omega

/-- C3 (amended): the one-shot flag does not make the callback fire
exactly once — it is a pruning mark.  After any `processEvents` call
that drained at least one event (here: the queue was nonempty), every
one-shot listener that has ever fired has been removed: all surviving
one-shot listeners have `callCount = 0`.  A one-shot listener can still
fire several times before that pruning, as `C3_oneshot_counterexample`
shows. -/
theorem C3_oneshot_pruned_after_processEvents (s : ESState) (h : s.eventQueue ≠ []) :
    0 < (processEvents s).2.1
    ∧ ∀ kv ∈ (processEvents s).1.listeners, ∀ l ∈ kv.2, l.oneShot = true → l.callCount = 0 := by
  have hpos := processBatch_pos 10 s h (by decide)
  have hpe : processEvents s
      = (cleanupListeners (processBatch 10 s).1, (processBatch 10 s).2.1,
         (processBatch 10 s).2.2) := by
    unfold processEvents
    rw [if_pos hpos]
  rw [hpe]
  refine ⟨hpos, ?_⟩
  intro kv hkv l hl hone
  unfold cleanupListeners at hkv
  simp only [List.mem_map] at hkv
  obtain ⟨kv0, _, rfl⟩ := hkv
  simp only [List.mem_filter] at hl
  obtain ⟨-, hkeep⟩ := hl
  simp only [hone, Bool.true_and, Bool.not_eq_eq_eq_not, Bool.not_true,
    decide_eq_false_iff_not, Nat.not_lt, Nat.le_zero] at hkeep
  exact hkeep

/-- The one-shot listener of the C3 scenario. -/
def c3Listener : EvListener :=
  { id := 1, eventType := 3, priority := 5, oneShot := true, callCount := 0 }

/-- Reachable state after subscribing one one-shot listener to type 3. -/
def c3State : ESState :=
  { esInit with listeners := [(3, [c3Listener])], nextListenerId := 1 }

/-- C3 counterexample: from the reachable state with one one-shot
listener on type 3, two consecutive `publishSync` calls of type 3 invoke
that listener's callback twice — not exactly once.  `publishSync` never
prunes one-shot listeners (only `processEvents` does, and only after a
drained batch). -/
theorem C3_oneshot_counterexample :
    SubSeq esInit [(3, 5, true)] c3State
    ∧ ((publishSync c3State 3).2.2
        ++ (publishSync (publishSync c3State 3).1 3).2.2).count 1 = 2
    ∧ ((publishSync c3State 3).2.2
        ++ (publishSync (publishSync c3State 3).1 3).2.2).count 1 ≠ 1 := by
  have h1 : subscribeRel esInit 3 5 true c3State :=
    ⟨[c3Listener], ⟨by decide, by decide⟩, by rfl⟩
  exact ⟨SubSeq.cons h1 (SubSeq.nil _), by decide, by decide⟩

/-- Concrete state for the C3 witness: one one-shot listener on type 3
and one queued type-3 event. -/
def c3wState : ESState :=
  { esInit with listeners := [(3, [c3Listener])], eventQueue := [3], nextListenerId := 1 }

/-- Witness for the amended C3 at a concrete state. -/
theorem C3_oneshot_pruned_witness :
    0 < (processEvents c3wState).2.1
    ∧ ∀ kv ∈ (processEvents c3wState).1.listeners, ∀ l ∈ kv.2,
        l.oneShot = true → l.callCount = 0 :=
  C3_oneshot_pruned_after_processEvents c3wState (by decide)

/-! ### Task Scheduler (`task_scheduler.cpp`) -/

/-- Embeds `TaskState`. -/
inductive TaskState where
  | ready
  | running
  | waiting
  | suspended
  | completed
  deriving DecidableEq, Repr

/-- Embeds `Task`.  The callback and name are symbolic; `dur` is the model's
oracle for the wall-clock milliseconds the callback consumes when it
runs (each task runs at most once per pass, so one duration per task
suffices). -/
structure Task where
  id : Nat
  priority : Nat
  state : TaskState
  nextExecution : Nat
  period : Nat
  maxRunTime : Nat
  actualRunTime : Nat
  executionCount : Nat
  autoDelete : Bool
  dur : Nat
  deriving DecidableEq, Repr

/-- Embeds `TaskScheduler::executeTask` with the callback starting at clock
`start` (`millis()` on entry) and running for `dur` ms, so
`endTime = start + dur`.  A throwing callback is caught and the task
still counts as executed.  The transient RUNNING assignment is internal
to the call; the post-state is READY (periodic, re-armed to
`endTime + period`) or COMPLETED (one-shot).  Scheduler-wide statistics
(`m_tasksExecuted`, `m_tasksOverrun`, `m_totalExecutionTime`, CPU load)
feed no scheduling decision and are omitted. -/
def executeTask (start : Nat) (t : Task) : Task :=
  if t.state ≠ TaskState.ready then t
  else if 0 < t.period then
    { t with actualRunTime := t.actualRunTime + t.dur,
             executionCount := t.executionCount + 1,
             nextExecution := start + t.dur + t.period,
             state := TaskState.ready }
  else
    { t with actualRunTime := t.actualRunTime + t.dur,
             executionCount := t.executionCount + 1,
             state := TaskState.completed }

/-- The execution loop of `TaskScheduler::update` (lines 58-69) over the
already-sorted task vector: execute every READY task whose deadline has
passed (`now` is `currentTime`, read once at the top of `update`), the
clock advancing as callbacks consume time; stop early once the 16 ms
frame budget is exceeded, leaving the remaining tasks untouched.
Returns the updated vector and one record per executed task: the task as
it was when picked, with the `millis()` value at which its callback
started. -/
def execPass (now : Nat) : Nat → List Task → List Task × List (Task × Nat)
  | _, [] => ([], [])
  | clock, t :: rest =>
    if t.state = TaskState.ready ∧ t.nextExecution ≤ now then
      if 16 < clock + t.dur - now then
        (executeTask clock t :: rest, [(t, clock)])
      else
        ((executeTask clock t :: (execPass now (clock + t.dur) rest).1),
         (t, clock) :: (execPass now (clock + t.dur) rest).2)
    else
      (t :: (execPass now clock rest).1, (execPass now clock rest).2)

/-- Embeds `TaskScheduler::cleanupTasks`: remove completed auto-delete tasks. -/
def cleanupTasks (ts : List Task) : List Task :=
  ts.filter (fun t => !(decide (t.state = TaskState.completed) && t.autoDelete))

/-- The `std::sort` comparator in `update`: higher priority first, then
earlier deadline first. -/
def taskBefore (a b : Task) : Prop :=
  b.priority < a.priority ∨ (a.priority = b.priority ∧ a.nextExecution < b.nextExecution)

instance : DecidableRel taskBefore := fun a b => by
  unfold taskBefore
  infer_instance

/-- A possible output of the `std::sort` call in `update`: a permutation
of the task vector sorted for the comparator (`std::sort` is unstable;
for tasks related strictly by the comparator every legal output orders
them alike). -/
def validTaskSort (input output : List Task) : Prop :=
  output.Perm input ∧ output.Pairwise (fun a b => ¬ taskBefore b a)

/-- Embeds `TaskScheduler::update` after the sort: run the execution pass, then
remove completed auto-delete tasks (`updateCPULoad` maintains statistics
only and is omitted). -/
def schedUpdate (now : Nat) (sorted : List Task) : List Task × List (Task × Nat) :=
  (cleanupTasks (execPass now now sorted).1, (execPass now now sorted).2)

lemma pair_sublist_of_mem {α : Type} {A B : α} :
    ∀ {l : List α}, A ∈ l → B ∈ l → A ≠ B →
      [A, B].Sublist l ∨ [B, A].Sublist l := by
  intro l
  induction l with
  | nil => intro h; simp at h
  | cons x xs ih =>
    intro hA hB hne
    rcases List.mem_cons.mp hA with rfl | hA'
    · have hB' : B ∈ xs := by
        rcases List.mem_cons.mp hB with h | h
        · exact absurd h.symm hne
        · exact h
      exact Or.inl (List.Sublist.cons₂ _ (List.singleton_sublist.mpr hB'))
    · rcases List.mem_cons.mp hB with rfl | hB'
      · exact Or.inr (List.Sublist.cons₂ _ (List.singleton_sublist.mpr hA'))
      · rcases ih hA' hB' hne with h | h
        · exact Or.inl (h.cons _)
        · exact Or.inr (h.cons _)

lemma execPass_order (now : Nat) (A B : Task)
    (hAr : A.state = TaskState.ready) (hAd : A.nextExecution ≤ now)
    (_hpri : B.priority < A.priority) :
    ∀ (l : List Task) (clock : Nat),
      (l.map Task.id).Nodup →
      [A, B].Sublist l →
      B.id ∈ (execPass now clock l).2.map (fun r => r.1.id) →
      [A.id, B.id].Sublist ((execPass now clock l).2.map (fun r => r.1.id)) := by
  intro l
  induction l with
  | nil =>
    intro clock _ hsub _
    rw [List.sublist_nil] at hsub
    exact absurd hsub (by simp)
  | cons t rest ih =>
    intro clock hnodup hsub hBin
    have hnodup' : (rest.map Task.id).Nodup := by
      simp only [List.map_cons, List.nodup_cons] at hnodup
      exact hnodup.2
    have htid : t.id ∉ rest.map Task.id := by
      simp only [List.map_cons, List.nodup_cons] at hnodup
      exact hnodup.1
    by_cases hc : t.state = TaskState.ready ∧ t.nextExecution ≤ now
    · by_cases hb : 16 < clock + t.dur - now
      · -- budget break: only t was executed
        simp only [execPass, if_pos hc, if_pos hb, List.map_cons, List.map_nil,
          List.mem_singleton] at hBin
        -- B.id = t.id, yet B is in rest for every shape of the sublist
        have hBrest : B ∈ rest := by
          cases hsub with
          | cons _ h => exact h.subset (by simp)
          | cons₂ _ h => exact h.subset (by simp)
        exact absurd (hBin ▸ List.mem_map_of_mem Task.id hBrest) htid
      · simp only [execPass, if_pos hc, if_neg hb, List.map_cons] at hBin ⊢
        cases hsub with
        | cons _ h =>
          have hBrest : B ∈ rest := h.subset (by simp)
          have hBne : B.id ≠ t.id := fun he =>
            htid (he ▸ List.mem_map_of_mem Task.id hBrest)
          have hBin' : B.id ∈ (execPass now (clock + t.dur) rest).2.map (fun r => r.1.id) := by
            rcases List.mem_cons.mp hBin with h1 | h1
            · exact absurd h1 hBne
            · exact h1
          exact (ih (clock + t.dur) hnodup' h hBin').cons _
        | cons₂ _ h =>
          -- A is the executed head; B occurs later
          have hBrest : B ∈ rest := h.subset (by simp)
          have hBne : B.id ≠ A.id := fun he =>
            htid (he ▸ List.mem_map_of_mem Task.id hBrest)
          have hBin' : B.id ∈ (execPass now (clock + A.dur) rest).2.map (fun r => r.1.id) := by
            rcases List.mem_cons.mp hBin with h1 | h1
            · exact absurd h1 hBne
            · exact h1
          refine List.Sublist.cons₂ _ ?_
          exact List.singleton_sublist.mpr
            ((List.Sublist.subset (List.singleton_sublist.mpr hBin')) (by simp))
    · -- head not runnable: A cannot be the head
      simp only [execPass, if_neg hc] at hBin ⊢
      cases hsub with
      | cons _ h => exact ih clock hnodup' h hBin
      | cons₂ _ h => exact absurd ⟨hAr, hAd⟩ hc

/-- C4: if tasks A and B are both READY and both due
(`nextExecution <= currentTime`) at the start of an `update` pass and
A has strictly higher priority, then whenever B's callback is executed
in that pass, A's callback was executed earlier in the same pass: the
execution log contains A's id before B's id.  (The 16 ms frame budget
can defer B — and then also everything after A — to a later tick, which
is why the conclusion is conditional on B having run.) -/
theorem C4_priority_execution_order (ts sorted : List Task) (now : Nat)
    (hsort : validTaskSort ts sorted)
    (hnodup : (ts.map Task.id).Nodup)
    (A B : Task) (hA : A ∈ ts) (hB : B ∈ ts)
    (hAr : A.state = TaskState.ready) (_hBr : B.state = TaskState.ready)
    (hAd : A.nextExecution ≤ now) (_hBd : B.nextExecution ≤ now)
    (hpri : B.priority < A.priority)
    (hBex : B.id ∈ (schedUpdate now sorted).2.map (fun r => r.1.id)) :
    [A.id, B.id].Sublist ((schedUpdate now sorted).2.map (fun r => r.1.id)) := by
  obtain ⟨hperm, hpair⟩ := hsort
  have hA' : A ∈ sorted := hperm.mem_iff.mpr hA
  have hB' : B ∈ sorted := hperm.mem_iff.mpr hB
  have hne : A ≠ B := fun he => by rw [he] at hpri; omega
  have hnodup' : (sorted.map Task.id).Nodup :=
    ((hperm.map Task.id).nodup_iff).mpr hnodup
  have hsubAB : [A, B].Sublist sorted := by
    rcases pair_sublist_of_mem hA' hB' hne with h | h
    · exact h
    · exfalso
      have := (List.pairwise_cons.mp (List.Pairwise.sublist h hpair)).1 A
        (List.mem_singleton.mpr rfl)
      exact this (Or.inl hpri)
  exact execPass_order now A B hAr hAd hpri sorted now hnodup' hsubAB hBex

lemma execPass_records (now : Nat) : ∀ (l : List Task) (clock : Nat),
    now ≤ clock →
    ∀ r ∈ (execPass now clock l).2,
      r.1.state = TaskState.ready ∧ r.1.nextExecution ≤ now ∧ now ≤ r.2
      ∧ executeTask r.2 r.1 ∈ (execPass now clock l).1 := by
  intro l
  induction l with
  | nil => intro clock _ r hr; simp [execPass] at hr
  | cons t rest ih =>
    intro clock hclock r hr
    by_cases hc : t.state = TaskState.ready ∧ t.nextExecution ≤ now
    · by_cases hb : 16 < clock + t.dur - now
      · simp only [execPass, if_pos hc, if_pos hb, List.mem_singleton] at hr
        subst hr
        exact ⟨hc.1, hc.2, hclock, by simp [execPass, if_pos hc, if_pos hb]⟩
      · simp only [execPass, if_pos hc, if_neg hb, List.mem_cons] at hr
        rcases hr with hr | hr
        · subst hr
          exact ⟨hc.1, hc.2, hclock, by simp [execPass, if_pos hc, if_neg hb]⟩
        · obtain ⟨h1, h2, h3, h4⟩ := ih (clock + t.dur) (by omega) r hr
          exact ⟨h1, h2, h3, by
            simp only [execPass, if_pos hc, if_neg hb]
            exact List.mem_cons_of_mem _ h4⟩
    · simp only [execPass, if_neg hc] at hr
      obtain ⟨h1, h2, h3, h4⟩ := ih clock hclock r hr
      exact ⟨h1, h2, h3, by
        simp only [execPass, if_neg hc]
        exact List.mem_cons_of_mem _ h4⟩

lemma executeTask_periodic (start : Nat) (t : Task) (ht : t.state = TaskState.ready)
    (hp : 0 < t.period) :
    (executeTask start t).id = t.id ∧ (executeTask start t).state = TaskState.ready
    ∧ (executeTask start t).nextExecution = start + t.dur + t.period := by
  unfold executeTask
  rw [if_neg (by simp [ht]), if_pos hp]
  exact ⟨rfl, rfl, rfl⟩

/-- C5: (1) `update` only executes tasks whose `nextExecution` has
passed: every execution record of a pass starting at `currentTime = now`
has `nextExecution <= now` and started at a clock value `>= now`;
(2) a periodic task that ran with its callback starting at time T is
re-armed READY with `nextExecution >= T + period` (in fact
`T + dur + period`), so — by (1) applied to any later pass — it cannot
execute again before `T + period`. -/
theorem C5_deadline_respected (ts sorted : List Task) (now : Nat)
    (_hsort : validTaskSort ts sorted) :
    (∀ r ∈ (schedUpdate now sorted).2, r.1.nextExecution ≤ now ∧ now ≤ r.2)
    ∧ ∀ r ∈ (schedUpdate now sorted).2, 0 < r.1.period →
        ∃ t' ∈ (schedUpdate now sorted).1, t'.id = r.1.id
          ∧ t'.state = TaskState.ready
          ∧ r.2 + r.1.period ≤ t'.nextExecution := by
  constructor
  · intro r hr
    obtain ⟨-, h2, h3, -⟩ := execPass_records now sorted now (le_refl now) r hr
    exact ⟨h2, h3⟩
  · intro r hr hper
    obtain ⟨h1, -, -, h4⟩ := execPass_records now sorted now (le_refl now) r hr
    obtain ⟨e1, e2, e3⟩ := executeTask_periodic r.2 r.1 h1 hper
    refine ⟨executeTask r.2 r.1, ?_, e1, e2, by omega⟩
    unfold schedUpdate cleanupTasks
    exact List.mem_filter.mpr ⟨h4, by simp [e2]⟩

/-- Higher-priority task of the C4 witness scenario. -/
def c4A : Task :=
  { id := 1, priority := 2, state := TaskState.ready, nextExecution := 0, period := 0,
    maxRunTime := 100, actualRunTime := 0, executionCount := 0, autoDelete := true, dur := 1 }

/-- Lower-priority task of the C4 witness scenario. -/
def c4B : Task :=
  { id := 2, priority := 1, state := TaskState.ready, nextExecution := 0, period := 0,
    maxRunTime := 100, actualRunTime := 0, executionCount := 0, autoDelete := true, dur := 1 }

/-- Witness for C4: with tasks stored as [B, A] and sorted to [A, B],
both due at time 5, the execution log runs A (id 1) before B (id 2). -/
theorem C4_priority_execution_order_witness :
    [c4A.id, c4B.id].Sublist ((schedUpdate 5 [c4A, c4B]).2.map (fun r => r.1.id)) :=
  C4_priority_execution_order [c4B, c4A] [c4A, c4B] 5
    ⟨by decide, by decide⟩ (by decide) c4A c4B (by decide) (by decide)
    (by decide) (by decide) (by decide) (by decide) (by decide) (by decide)

/-- Periodic task of the C5 witness scenario (period 10, duration 2). -/
def c5P : Task :=
  { id := 1, priority := 1, state := TaskState.ready, nextExecution := 0, period := 10,
    maxRunTime := 100, actualRunTime := 0, executionCount := 0, autoDelete := false, dur := 2 }

/-- Witness for C5 at a concrete pass: the periodic task runs at time 3
and is re-armed no earlier than 13. -/
theorem C5_deadline_respected_witness :
    (∀ r ∈ (schedUpdate 3 [c5P]).2, r.1.nextExecution ≤ 3 ∧ 3 ≤ r.2)
    ∧ ∀ r ∈ (schedUpdate 3 [c5P]).2, 0 < r.1.period →
        ∃ t' ∈ (schedUpdate 3 [c5P]).1, t'.id = r.1.id
          ∧ t'.state = TaskState.ready
          ∧ r.2 + r.1.period ≤ t'.nextExecution :=
  C5_deadline_respected [c5P] [c5P] 3 ⟨by decide, by decide⟩

/-! ### Application Manager (`app_manager.cpp`) and the BaseApp lifecycle
(`base_app.cpp`) -/

/-- Embeds `AppState` from `base_app.h`. -/
inductive AppState where
  | stopped
  | starting
  | running
  | paused
  | stopping
  | error
  deriving DecidableEq, Repr

/-- A hosted application instance as the manager sees it through the
BaseApp contract: its lifecycle state, priority and exit flag (name,
version, UI handle and statistics drive no manager decision and are
dropped). -/
structure App where
  state : AppState
  priority : Nat
  exitRequested : Bool
  deriving DecidableEq, Repr

/-- Embeds `BaseApp::pause` (base_app.cpp:38-50): RUNNING -> PAUSED only. -/
def appPause (a : App) : App × OsErr :=
  if a.state ≠ AppState.running then (a, OsErr.generic)
  else ({ a with state := AppState.paused }, OsErr.ok)

/-- Embeds `BaseApp::resume` (base_app.cpp:52-64): PAUSED -> RUNNING only. -/
def appResume (a : App) : App × OsErr :=
  if a.state ≠ AppState.paused then (a, OsErr.generic)
  else ({ a with state := AppState.running }, OsErr.ok)

/-- Embeds `BaseApp::start` (base_app.cpp:14-36): no-op when RUNNING, resume
when PAUSED, else STARTING -> RUNNING (the transient STARTING is
internal to the call) with the exit flag cleared.  Always OS_OK. -/
def appStart (a : App) : App × OsErr :=
  if a.state = AppState.running then (a, OsErr.ok)
  else if a.state = AppState.paused then appResume a
  else ({ a with state := AppState.running, exitRequested := false }, OsErr.ok)

/-- Embeds `BaseApp::stop` (base_app.cpp:66-85): no-op when STOPPED, else
STOPPING -> STOPPED.  Always OS_OK. -/
def appStop (a : App) : App × OsErr :=
  if a.state = AppState.stopped then (a, OsErr.ok)
  else ({ a with state := AppState.stopped }, OsErr.ok)

/-- Embeds `AppManager` state after `initialize()`.  App-id strings are renamed
injectively to naturals, `std::map<std::string, ...>` iteration order
becoming ascending id order; the `m_currentAppId` empty-string sentinel
becomes `none`.  A registered factory is recorded as the priority of the
instance it constructs (`m_appFactories`); registration is initial
configuration here. -/
structure AMState where
  appFactories : List (Nat × Nat)
  runningApps : List (Nat × App)
  currentAppId : Option Nat
  maxConcurrentApps : Nat
  totalLaunches : Nat
  totalKills : Nat
  deriving DecidableEq, Repr

/-- Manager state with the given registered factories and concurrency
ceiling (`m_maxConcurrentApps`, default `OS_MAX_APPS = 12`). -/
def amInit (factories : List (Nat × Nat)) (maxApps : Nat) : AMState :=
  { appFactories := factories, runningApps := [], currentAppId := none,
    maxConcurrentApps := maxApps, totalLaunches := 0, totalKills := 0 }

/-- Embeds `AppManager::getApp`. -/
def getApp (s : AMState) (id : Nat) : Option App :=
  alLookup s.runningApps id

/-- Embeds `AppManager::isAppRunning`: present in the running map AND in the
RUNNING lifecycle state (`BaseApp::isRunning`). -/
def isAppRunning (s : AMState) (id : Nat) : Bool :=
  match getApp s id with
  | none => false
  | some a => a.state = AppState.running

/-- Embeds `AppManager::createApp`: look up the factory and construct a fresh
instance (STOPPED, exit flag clear).  `ctorOk` is the oracle for the
factory not throwing. -/
def createApp (s : AMState) (id : Nat) (ctorOk : Bool) : Option App :=
  match alLookup s.appFactories id with
  | none => none
  | some prio =>
      if ctorOk then some { state := AppState.stopped, priority := prio, exitRequested := false }
      else none

/-- Lines 251-256 of `switchToApp`: pause the current foreground app if
there is one and it is RUNNING. -/
def pauseCurrent (s : AMState) : AMState :=
  match s.currentAppId with
  | none => s
  | some cid =>
    match alLookup s.runningApps cid with
    | none => s
    | some capp =>
        if capp.state = AppState.running then
          { s with runningApps := alInsert cid (appPause capp).1 s.runningApps }
        else s

/-- Embeds `AppManager::switchToApp` (app_manager.cpp:236-271): reject ids that
are absent or not RUNNING; no-op when already foreground; otherwise
pause the current foreground, make `id` foreground, and resume it if it
was paused (dead for a RUNNING target, kept from the source). -/
def switchToApp (s : AMState) (id : Nat) : AMState × OsErr :=
  match alLookup s.runningApps id with
  | none => (s, OsErr.notFound)
  | some app =>
    if app.state ≠ AppState.running then (s, OsErr.notFound)
    else if s.currentAppId = some id then (s, OsErr.ok)
    else
      if app.state = AppState.paused then
        ({ { pauseCurrent s with currentAppId := some id } with
            runningApps := alInsert id (appResume app).1
              ({ pauseCurrent s with currentAppId := some id }).runningApps }, OsErr.ok)
      else ({ pauseCurrent s with currentAppId := some id }, OsErr.ok)

/-- Embeds `AppManager::killApp` (app_manager.cpp:175-208): stop and tear down
the instance (its final state transitions die with the erased record),
remove it, and if it was the foreground app clear the foreground and try
to switch to the first remaining app in iteration order.  The result of
that `switchToApp` is ignored; `killApp` returns OS_OK. -/
def killApp (s : AMState) (id : Nat) : AMState × OsErr :=
  match alLookup s.runningApps id with
  | none => (s, OsErr.notFound)
  | some _ =>
    if s.currentAppId = some id then
      match alErase id s.runningApps with
      | [] =>
          ({ s with runningApps := alErase id s.runningApps,
                    currentAppId := none, totalKills := s.totalKills + 1 }, OsErr.ok)
      | (fid, _) :: _ =>
          ((switchToApp { s with runningApps := alErase id s.runningApps,
                                 currentAppId := none,
                                 totalKills := s.totalKills + 1 } fid).1, OsErr.ok)
    else
      ({ s with runningApps := alErase id s.runningApps,
                totalKills := s.totalKills + 1 }, OsErr.ok)

/-- Embeds `AppManager::launchApp` (app_manager.cpp:126-173).  Oracles:
`ctorOk` — the factory constructs without throwing; `initRes` — the
result of the app-defined `initialize()`.  An id that `isAppRunning`
performs a foreground switch instead; at the concurrency ceiling the
launch is refused busy; otherwise construct, initialize, start
(`BaseApp::start`, which on a fresh STOPPED instance always succeeds, so
the start-failure teardown of lines 158-163 is unreachable for
BaseApp-conforming apps), insert, and switch to the new app. -/
def launchApp (s : AMState) (id : Nat) (ctorOk : Bool) (initRes : OsErr) :
    AMState × OsErr :=
  if isAppRunning s id then switchToApp s id
  else if s.maxConcurrentApps ≤ s.runningApps.length then (s, OsErr.busy)
  else
    match createApp s id ctorOk with
    | none => (s, OsErr.generic)
    | some app =>
      if initRes ≠ OsErr.ok then (s, initRes)
      else
        switchToApp
          { s with runningApps := alInsert id (appStart app).1 s.runningApps,
                   totalLaunches := s.totalLaunches + 1 } id

lemma createApp_state {s : AMState} {id : Nat} {ctorOk : Bool} {app : App}
    (h : createApp s id ctorOk = some app) :
    app.state = AppState.stopped := by
  unfold createApp at h
  rcases hl : alLookup s.appFactories id with _ | prio
  · rw [hl] at h
    simp at h
  · rw [hl] at h
    dsimp only at h
    by_cases hc : ctorOk = true
    · rw [if_pos hc, Option.some.injEq] at h
      rw [← h]
    · rw [if_neg hc] at h
      simp at h

lemma appStart_of_stopped {app : App} (h : app.state = AppState.stopped) :
    (appStart app).1 = { app with state := AppState.running, exitRequested := false } := by
  unfold appStart
  rw [if_neg (by rw [h]; decide), if_neg (by rw [h]; decide)]

/-- C7: when `id` is not currently running (`isAppRunning` false) and
the running-instances map has reached the concurrency ceiling,
`launchApp` returns the busy error and the whole manager state — the
running map, the foreground id, the counters — is unchanged. -/
theorem C7_launch_at_ceiling_busy (s : AMState) (id : Nat) (ctorOk : Bool) (initRes : OsErr)
    (hrun : isAppRunning s id = false)
    (hceil : s.maxConcurrentApps ≤ s.runningApps.length) :
    launchApp s id ctorOk initRes = (s, OsErr.busy) := by
  unfold launchApp
  simp [hrun, hceil]

/-- The single running app filling the ceiling-1 slot of the C7 witness. -/
def c7App : App := { state := AppState.running, priority := 1, exitRequested := false }

/-- Concrete manager state at its concurrency ceiling of 1. -/
def c7State : AMState :=
  { appFactories := [(1, 1), (2, 1)], runningApps := [(1, c7App)], currentAppId := some 1,
    maxConcurrentApps := 1, totalLaunches := 1, totalKills := 0 }

/-- Witness for C7: launching app 2 with app 1 filling the ceiling of 1
returns busy and changes nothing. -/
theorem C7_launch_at_ceiling_busy_witness :
    launchApp c7State 2 true OsErr.ok = (c7State, OsErr.busy) :=
  C7_launch_at_ceiling_busy c7State 2 true OsErr.ok (by decide) (by decide)

/-- Initial configuration for the C8 counterexample run: two registered
apps, the default ceiling. -/
def c8Start : AMState := amInit [(1, 1), (2, 1)] 12

/-- State after launching app 1 and then app 2 from `c8Start`: app 1 is
PAUSED in the background, app 2 is the RUNNING foreground. -/
def c8S2 : AMState := (launchApp (launchApp c8Start 1 true OsErr.ok).1 2 true OsErr.ok).1

/-- C8 counterexample: from the reachable state `c8S2` (app 1 paused in
the background, app 2 the running foreground), `killApp 2` removes app 2
— but the foreground id ends up cleared even though app 1 remains in the
running-instances map, and no remaining app becomes foreground.
`killApp` does call `switchToApp` on the first remaining app, but
`switchToApp` rejects any app that is not in the RUNNING state, and a
backgrounded app is PAUSED.  This refutes the claim that exactly one
remaining app (the first in iteration order) becomes the new foreground
and that the foreground id is cleared only when no running apps remain. -/
theorem C8_kill_foreground_counterexample :
    c8S2.currentAppId = some 2
    ∧ c8S2.runningApps.map (fun kv => (kv.1, kv.2.state))
        = [(1, AppState.paused), (2, AppState.running)]
    ∧ (killApp c8S2 2).1.runningApps.map Prod.fst = [1]
    ∧ (killApp c8S2 2).1.currentAppId = none := by
  refine ⟨by decide, by decide, by decide, by decide⟩

/-- C8 (amended): `killApp` on the current foreground app removes it
from the running-instances map and clears the foreground id; then, if
apps remain AND the first one in iteration order is in the RUNNING
state, that app becomes the new foreground — otherwise (in particular
when the first remaining app is PAUSED, the normal state of a
backgrounded app) the foreground id remains cleared even though apps
remain in the map. -/
theorem C8_kill_foreground_behavior (s : AMState) (id : Nat) (app : App)
    (happ : alLookup s.runningApps id = some app)
    (hcur : s.currentAppId = some id) :
    (killApp s id).1.runningApps = alErase id s.runningApps
    ∧ (killApp s id).1.currentAppId
        = (match alErase id s.runningApps with
           | [] => none
           | (fid, fapp) :: _ =>
               if fapp.state = AppState.running then some fid else none) := by
  unfold killApp
  rw [happ]
  simp only [if_pos hcur]
  rcases herase : alErase id s.runningApps with _ | ⟨⟨fid, fapp⟩, tail⟩
  · exact ⟨rfl, rfl⟩
  · by_cases hf : fapp.state = AppState.running
    · simp [switchToApp, alLookup, hf, pauseCurrent]
    · simp [switchToApp, alLookup, hf]

/-- The paused background app of the C8 witness state. -/
def c8wApp1 : App := { state := AppState.paused, priority := 1, exitRequested := false }

/-- The running foreground app of the C8 witness state. -/
def c8wApp2 : App := { state := AppState.running, priority := 1, exitRequested := false }

/-- Concrete manager state: app 1 paused in the background, app 2 the
running foreground. -/
def c8wState : AMState :=
  { appFactories := [(1, 1), (2, 1)], runningApps := [(1, c8wApp1), (2, c8wApp2)],
    currentAppId := some 2, maxConcurrentApps := 12, totalLaunches := 2, totalKills := 0 }

/-- Witness for the amended C8 at a concrete state: killing foreground 2
leaves app 1 in the map with the foreground cleared (app 1 is paused). -/
theorem C8_kill_foreground_behavior_witness :
    (killApp c8wState 2).1.runningApps = alErase 2 c8wState.runningApps
    ∧ (killApp c8wState 2).1.currentAppId
        = (match alErase 2 c8wState.runningApps with
           | [] => none
           | (fid, fapp) :: _ =>
               if fapp.state = AppState.running then some fid else none) :=
  C8_kill_foreground_behavior c8wState 2 c8wApp2 (by decide) (by decide)

/-- C10: a successful `launchApp id` with `id` not already running makes
`id` the current (foreground) application, and the app that was
foreground before the call, if it was in the RUNNING state, has been
transitioned to PAUSED (via `BaseApp::pause` inside `switchToApp`). -/
theorem C10_launch_makes_foreground (s : AMState) (id : Nat) (ctorOk : Bool)
    (initRes : OsErr)
    (hrun : isAppRunning s id = false)
    (hok : (launchApp s id ctorOk initRes).2 = OsErr.ok) :
    (launchApp s id ctorOk initRes).1.currentAppId = some id
    ∧ ∀ cid capp, s.currentAppId = some cid →
        alLookup s.runningApps cid = some capp → capp.state = AppState.running →
        alLookup (launchApp s id ctorOk initRes).1.runningApps cid
          = some { capp with state := AppState.paused } := by
  unfold launchApp at hok ⊢
  rw [if_neg (by rw [hrun]; decide)] at hok ⊢
  by_cases hceil : s.maxConcurrentApps ≤ s.runningApps.length
  · rw [if_pos hceil] at hok
    simp at hok
  · rw [if_neg hceil] at hok ⊢
    rcases hcreate : createApp s id ctorOk with _ | app
    · rw [hcreate] at hok
      simp at hok
    · rw [hcreate] at hok
      dsimp only at hok ⊢
      by_cases hinit : initRes = OsErr.ok
      · rw [if_neg (by simp [hinit])] at hok ⊢
        have happstate := appStart_of_stopped (createApp_state hcreate)
        set started := (appStart app).1 with hstarted
        have hsrun : started.state = AppState.running := by
          rw [happstate]
        set s1 : AMState :=
          { s with runningApps := alInsert id started s.runningApps,
                   totalLaunches := s.totalLaunches + 1 } with hs1
        have hlk : alLookup s1.runningApps id = some started := by
          rw [hs1]
          dsimp only
          rw [alLookup_alInsert]
          simp
        unfold switchToApp at hok ⊢
        rw [hlk] at hok ⊢
        dsimp only at hok ⊢
        rw [if_neg (by simp [hsrun])] at hok ⊢
        by_cases hcase : s1.currentAppId = some id
        · rw [if_pos hcase]
          have hscur : s.currentAppId = some id := hcase
          refine ⟨hcase, ?_⟩
          intro cid capp h1 h2 h3
          exfalso
          rw [hscur, Option.some.injEq] at h1
          subst h1
          unfold isAppRunning getApp at hrun
          rw [h2] at hrun
          simp [h3] at hrun
        · rw [if_neg hcase]
          rw [if_neg (by simp [hsrun])]
          refine ⟨rfl, ?_⟩
          intro cid capp h1 h2 h3
          have hcid : cid ≠ id := by
            intro he
            exact hcase (by rw [hs1]; dsimp only; rw [h1, he])
          have hlkcid : alLookup s1.runningApps cid = some capp := by
            rw [hs1]
            dsimp only
            rw [alLookup_alInsert]
            rw [if_neg (by omega)]
            exact h2
          unfold pauseCurrent
          have hs1cur : s1.currentAppId = s.currentAppId := rfl
          rw [hs1cur, h1]
          dsimp only
          rw [hlkcid]
          dsimp only
          rw [if_pos h3]
          dsimp only
          unfold appPause
          rw [if_neg (by simp [h3])]
          dsimp only
          rw [alLookup_alInsert]
          simp
      · rw [if_pos (by simp [hinit])] at hok
        exact absurd hok hinit

/-- The running foreground app of the C10 witness state. -/
def c10App1 : App := { state := AppState.running, priority := 1, exitRequested := false }

/-- Concrete manager state before the C10 witness launch: app 1 is the
running foreground, app 2 is registered but not running. -/
def c10State : AMState :=
  { appFactories := [(1, 1), (2, 1)], runningApps := [(1, c10App1)], currentAppId := some 1,
    maxConcurrentApps := 12, totalLaunches := 1, totalKills := 0 }

/-- Witness for C10 at a concrete state: launching app 2 makes it the
foreground and the previously running foreground app 1 is paused. -/
theorem C10_launch_makes_foreground_witness :
    (launchApp c10State 2 true OsErr.ok).1.currentAppId = some 2
    ∧ ∀ cid capp, c10State.currentAppId = some cid →
        alLookup c10State.runningApps cid = some capp → capp.state = AppState.running →
        alLookup (launchApp c10State 2 true OsErr.ok).1.runningApps cid
          = some { capp with state := AppState.paused } :=
  C10_launch_makes_foreground c10State 2 true OsErr.ok (by decide) (by decide)

end Tab5

